import Mathlib

/-!
Verification development for the bilietai.lt listing/series scraping pipeline
(`scrape_bilietai_lt` in `scrape_events.py`).

The Python routine is shallowly embedded as pure Lean functions:

* the three regular expressions (`event_page_re`, `abs_event_page_re`,
  `time_re`) are modelled as decision procedures over `List Char`, faithful to
  Python `re.search` semantics (leftmost match, greedy quantifiers, `.` not
  matching a newline, ASCII word characters for `\b`);
* the rendered document is a tree `Node`; a metadata `<script>` block is
  represented by its ancestor chain (nearest parent first), the abstraction
  the ascending-parent search of `find_container_and_event_link` consumes;
* a parsed JSON-LD event object is a record of optional fields (`None`
  models a missing field or one whose value the Python code discards with an
  `isinstance` check and replaces with `{}`);
* page rendering is abstracted by a `World` mapping each listing page and
  each series URL to either a render failure or the list of extracted
  (script-block, event-object) pairs;
* Python `set`/`dict` crawl state becomes insertion-ordered lists without
  duplicates; `scraped_at` timestamps are abstracted to one value per run.
-/

/-! ### Python string helpers -/

/-- Characters stripped by Python `str.strip()` with no argument. -/
def isPySpace (c : Char) : Bool :=
  c == ' ' || c == '\t' || c == '\n' || c == '\r' || c == '\x0b' || c == '\x0c'

/-- `str.strip()` on a character list. -/
def trimChars (l : List Char) : List Char :=
  ((l.dropWhile isPySpace).reverse.dropWhile isPySpace).reverse

/-- `str.strip()`. -/
def pyStrip (s : String) : String := ⟨trimChars s.toList⟩

/-- Does `pat` occur at the head of `cs`? -/
def listStartsWith : List Char → List Char → Bool
  | [], _ => true
  | _ :: _, [] => false
  | p :: ps, c :: cs => p == c && listStartsWith ps cs

/-- Python `s.startswith(pat)`. -/
def strStartsWith (s pat : String) : Bool := listStartsWith pat.toList s.toList

def strContainsAux (pat : List Char) : List Char → Bool
  | [] => pat.isEmpty
  | c :: cs => listStartsWith pat (c :: cs) || strContainsAux pat cs

/-- Python `pat in s` (substring containment). -/
def strContains (s pat : String) : Bool := strContainsAux pat.toList s.toList

/-- Characters of `l` before the first `'#'`; models `href.split("#")[0]`. -/
def takeUntilHash : List Char → List Char
  | [] => []
  | c :: rest => if c == '#' then [] else c :: takeUntilHash rest

/-- Python `href.split("#")[0]`. -/
def stripFrag (s : String) : String := ⟨takeUntilHash s.toList⟩

/-- Split at the first `'T'`: `some (before, after)` when present; models
`s.split("T", 1)` under the `"T" in s` test of `split_dt`. -/
def splitFirstT : List Char → Option (List Char × List Char)
  | [] => none
  | c :: rest =>
    if c == 'T' then some ([], rest)
    else
      match splitFirstT rest with
      | some (d, t) => some (c :: d, t)
      | none => none

/-! ### The `event_page_re` and `abs_event_page_re` regexes

`event_page_re = /(?:eng|lit)/tickets/.+-\d+` and `abs_event_page_re`
prefixes it with `https?://(?:www\.)?bilietai\.lt`; both are used with
`re.search`. -/

/-- Consume a literal: `some rest` when `cs` starts with the pattern. -/
def dropLit : List Char → List Char → Option (List Char)
  | [], cs => some cs
  | _ :: _, [] => none
  | p :: ps, c :: cs => if p == c then dropLit ps cs else none

/-- After having consumed at least one `.`-matched character, scan for the
literal `'-'` followed by a digit; further characters absorbed by `.+` must
not be newlines. -/
def auxAfterOne : List Char → Bool
  | [] => false
  | c :: rest =>
    (c == '-' && (match rest with | d :: _ => d.isDigit | [] => false))
      || (!(c == '\n') && auxAfterOne rest)

/-- Match `.+-\d+` at the head of `cs` (Python `.` excludes `'\n'`). -/
def tailMatch : List Char → Bool
  | [] => false
  | c :: rest => !(c == '\n') && auxAfterOne rest

/-- Match a literal then `.+-\d+`. -/
def litThen (p : String) (cs : List Char) : Bool :=
  match dropLit p.toList cs with
  | some rest => tailMatch rest
  | none => false

/-- Match `/(?:eng|lit)/tickets/.+-\d+` at the head of `cs`. -/
def matchEventAt (cs : List Char) : Bool :=
  litThen "/eng/tickets/" cs || litThen "/lit/tickets/" cs

/-- Match a scheme/host literal then the event path pattern. -/
def hostThen (p : String) (cs : List Char) : Bool :=
  match dropLit p.toList cs with
  | some rest => matchEventAt rest
  | none => false

/-- Match `https?://(?:www\.)?bilietai\.lt/(?:eng|lit)/tickets/.+-\d+` at the
head of `cs` (the four concrete scheme/host spellings). -/
def matchAbsAt (cs : List Char) : Bool :=
  hostThen "http://www.bilietai.lt" cs || hostThen "http://bilietai.lt" cs
    || hostThen "https://www.bilietai.lt" cs || hostThen "https://bilietai.lt" cs

/-- `re.search`: try the anchored matcher at every position. -/
def searchFrom (f : List Char → Bool) : List Char → Bool
  | [] => f []
  | c :: rest => f (c :: rest) || searchFrom f rest

/-- `event_page_re.search(s)` as a Boolean. -/
def searchEventPage (s : String) : Bool := searchFrom matchEventAt s.toList

/-- `abs_event_page_re.search(s)` as a Boolean. -/
def searchAbsEventPage (s : String) : Bool := searchFrom matchAbsAt s.toList

/-! ### The `time_re` regex: `\b(\d{1,2}:\d{2})\b` -/

/-- Python `\w` restricted to the ASCII fragment exercised by the code. -/
def isWordChar (c : Char) : Bool := c.isAlphanum || c == '_'

/-- `\b` to the right of a digit: next character absent or not a word
character. -/
def boundaryAfter : List Char → Bool
  | [] => true
  | c :: _ => !isWordChar c

/-- Try `\d{2}:\d{2}\b` at the head (the greedy two-digit hour case). -/
def timeMatchTwo (cs : List Char) : Option (List Char) :=
  match cs with
  | d1 :: d2 :: c :: d3 :: d4 :: rest =>
    if d1.isDigit && d2.isDigit && c == ':' && d3.isDigit && d4.isDigit
        && boundaryAfter rest
    then some [d1, d2, c, d3, d4] else none
  | _ => none

/-- Try `\d{1}:\d{2}\b` at the head (the backtracked one-digit hour case). -/
def timeMatchOne (cs : List Char) : Option (List Char) :=
  match cs with
  | d1 :: c :: d3 :: d4 :: rest =>
    if d1.isDigit && c == ':' && d3.isDigit && d4.isDigit && boundaryAfter rest
    then some [d1, c, d3, d4] else none
  | _ => none

/-- Try `\b(\d{1,2}:\d{2})\b` at the head of `cs`, `prev` being the character
before the current position (the first matched character is a digit, so the
left boundary holds iff `prev` is absent or not a word character). -/
def timeAt (prev : Option Char) (cs : List Char) : Option (List Char) :=
  if (match prev with | none => true | some p => !isWordChar p) then
    match timeMatchTwo cs with
    | some t => some t
    | none => timeMatchOne cs
  else none

/-- Leftmost-match scan for `time_re`. -/
def searchTimeAux : Option Char → List Char → Option (List Char)
  | _, [] => none
  | prev, c :: rest =>
    match timeAt prev (c :: rest) with
    | some t => some t
    | none => searchTimeAux (some c) rest

/-- `first_time_from_text`: group 1 of the first `time_re` match, else `""`. -/
def first_time_from_text (s : String) : String :=
  match searchTimeAux none s.toList with
  | some t => ⟨t⟩
  | none => ""

/-! ### The rendered document tree and the container/link resolver -/

/-- A node of the rendered document: a text node or an element with a tag, an
optional `href` attribute and children. -/
inductive Node where
  | text (s : String)
  | elem (tag : String) (href : Option String) (children : List Node)

mutual

/-- All text-node strings below (and at) `n`, in document order; the
flattening underlying BeautifulSoup `get_text`. -/
def nodeStrings : Node → List String
  | .text s => [s]
  | .elem _ _ cs => nodeStringsL cs

def nodeStringsL : List Node → List String
  | [] => []
  | n :: ns => nodeStrings n ++ nodeStringsL ns

end

def joinAll : List String → String
  | [] => ""
  | s :: rest => s ++ joinAll rest

def joinSpace : List String → String
  | [] => ""
  | [s] => s
  | s :: rest => s ++ " " ++ joinSpace rest

/-- `container.get_text()`: concatenation of all text nodes. -/
def get_text (n : Node) : String := joinAll (nodeStrings n)

/-- `container.get_text(" ", strip=True)`: each text node stripped, empties
dropped, the rest joined with single spaces. -/
def get_text_ws (n : Node) : String :=
  joinSpace (((nodeStrings n).map pyStrip).filter (fun s => s != ""))

/-- `urljoin(site_root, href)` for the hrefs that reach it (all start with
`"/"`): a protocol-relative `"//host/…"` href adopts the scheme, any other
root-relative href is appended to the site root. -/
def abs_url (href : String) : String :=
  if strStartsWith href "//" then "https:" ++ href
  else "https://www.bilietai.lt" ++ href

/-- The per-href link logic shared by step 1 and the ascent loop of
`find_container_and_event_link`: a root-relative href matching
`event_page_re` resolves through `abs_url`; otherwise an href matching
`abs_event_page_re` is kept with its fragment stripped; otherwise no link. -/
def detailFromHref (href : String) : Option String :=
  if strStartsWith href "/" && searchEventPage href then some (abs_url href)
  else if searchAbsEventPage href then some (stripFrag href)
  else none

/-- `script_tag.find_parent("a", href=True)` over the ancestor chain
(nearest parent first): the first ancestor that is an `<a>` carrying an
`href`, paired with that href. -/
def find_parent_a : List Node → Option (Node × String)
  | [] => none
  | n :: rest =>
    match n with
    | .elem "a" (some h) _ => some (n, h)
    | _ => find_parent_a rest

mutual

/-- `href` attributes of all `<a href=…>` elements at or below a node,
pre-order (the traversal order of `find_all("a", href=True)`). -/
def hrefsIncl : Node → List String
  | .text _ => []
  | .elem tag href cs =>
    (match tag, href with
     | "a", some h => [h]
     | _, _ => []) ++ hrefsInclL cs

def hrefsInclL : List Node → List String
  | [] => []
  | n :: ns => hrefsIncl n ++ hrefsInclL ns

end

/-- `node.find_all("a", href=True)` hrefs: descendants only, excluding the
node itself. -/
def hrefsUnder : Node → List String
  | .text _ => []
  | .elem _ _ cs => hrefsInclL cs

/-- The `links` list collected at one ancestor of the ascent loop. -/
def collectLinks (n : Node) : List String :=
  (hrefsUnder n).filterMap detailFromHref

def uniqKeepAux (seen : List String) : List String → List String
  | [] => []
  | x :: xs =>
    if x ∈ seen then uniqKeepAux seen xs else x :: uniqKeepAux (seen ++ [x]) xs

/-- `list(dict.fromkeys(links))`: de-duplicate keeping first occurrences. -/
def uniqKeep (l : List String) : List String := uniqKeepAux [] l

/-- The bounded ascent (`for _ in range(10)` with `node = node.parent`):
visit ancestors in order while fuel lasts, stopping at the first whose
de-duplicated link set is a singleton. -/
def ascend : Nat → List Node → Option Node × String
  | _, [] => (none, "")
  | 0, _ :: _ => (none, "")
  | Nat.succ n, node :: rest =>
    match uniqKeep (collectLinks node) with
    | [l] => (some node, l)
    | _ => ascend n rest

/-- `find_container_and_event_link`, the script block given by its ancestor
chain (nearest parent first). -/
def find_container_and_event_link (chain : List Node) : Option Node × String :=
  match find_parent_a chain with
  | some (_, href) =>
    match detailFromHref href with
    | some l => ((find_parent_a chain).map Prod.fst, l)
    | none => ascend 10 chain
  | none => ascend 10 chain

/-! ### Event objects and the record builder -/

/-- Nested `location.address` payload. -/
structure AddrObj where
  addressLocality : Option String
deriving DecidableEq

/-- Nested `location` payload; `none` in a field models a missing key (or a
value whose dict-`isinstance` check fails, which the code replaces by `{}`). -/
structure LocObj where
  name : Option String
  address : Option AddrObj
deriving DecidableEq

/-- Nested `offers` payload. -/
structure OffersObj where
  url : Option String
deriving DecidableEq

/-- A parsed JSON-LD object with `@type == "Event"`. -/
structure EventObj where
  name : Option String
  location : Option LocObj
  offers : Option OffersObj
  startDate : Option String
deriving DecidableEq

/-- The canonical output record. -/
structure Row where
  title : String
  location : String
  city : String
  start_date : String
  start_time : String
  event_link : String
  ticket_link : String
  scraped_at : String
deriving DecidableEq

/-- `split_dt`: split a combined date-time at the first `"T"`, stripping both
parts and truncating the time to five characters; no `"T"` means no time. -/
def split_dt (s : String) : String × String :=
  if s = "" then ("", "")
  else
    match splitFirstT s.toList with
    | some (d, t) => (pyStrip ⟨d⟩, ⟨(trimChars t).take 5⟩)
    | none => (pyStrip s, "")

/-- `container.get_text() if container else ""` (series-marker check). -/
def containerRawText : Option Node → String
  | some n => get_text n
  | none => ""

/-- `container.get_text(" ", strip=True) if container else ""`. -/
def containerTextWs : Option Node → String
  | some n => get_text_ws n
  | none => ""

/-- `row_from_event`: build the canonical record, defaulting every missing
nested field to `""`, with the first `time_re` match of the container text as
fallback time and site-relative ticket URLs made absolute. -/
def row_from_event (e : EventObj) (container : Option Node)
    (event_page_link now : String) : Row :=
  let sd := split_dt (e.startDate.getD "")
  let start_time := if sd.2 = "" then first_time_from_text (containerTextWs container) else sd.2
  let t := (e.offers.bind OffersObj.url).getD ""
  { title := e.name.getD ""
    location := (e.location.bind LocObj.name).getD ""
    city := ((e.location.bind LocObj.address).bind AddrObj.addressLocality).getD ""
    start_date := sd.1
    start_time := start_time
    event_link := event_page_link
    ticket_link := if strStartsWith t "/" then abs_url t else t
    scraped_at := now }

/-! ### Crawl state and the two-phase pipeline -/

/-- One extracted metadata block: the ancestor chain of its `<script>` tag and
the parsed event object `iter_event_jsonld` yielded with it. -/
structure Block where
  chain : List Node
  event : EventObj

/-- Outcome of rendering one page: a navigation/timeout failure, or the
blocks extracted from the rendered content. -/
inductive PageRes where
  | fail
  | ok (blocks : List Block)

/-- The external pages: outcomes for the listing pages (in visit order) and
for each series URL. -/
structure World where
  listingPages : List PageRes
  seriesPage : String → PageRes

/-- The mutable crawl accumulators, as insertion-ordered lists:
`rows`, `series_links` (a set), `series_fallback` (a dict) and
`seen_event_pages` (a set). -/
structure CrawlState where
  rows : List Row
  series_links : List String
  series_fallback : List (String × Row)
  seen_event_pages : List String
deriving DecidableEq

/-- `set.add`: append unless present. -/
def addSet (l : List String) (x : String) : List String :=
  if x ∈ l then l else l ++ [x]

/-- Dict lookup. -/
def mapGet (m : List (String × Row)) (k : String) : Option Row :=
  match m with
  | [] => none
  | (k', v) :: rest => if k' = k then some v else mapGet rest k

/-- Dict assignment: update in place or append. -/
def mapSet (m : List (String × Row)) (k : String) (v : Row) : List (String × Row) :=
  match m with
  | [] => [(k, v)]
  | (k', v') :: rest =>
    if k' = k then (k', v) :: rest else (k', v') :: mapSet rest k v

/-- The container resolved for a block. -/
def resolvedContainer (b : Block) : Option Node :=
  (find_container_and_event_link b.chain).1

/-- The event-detail link resolved for a block. -/
def resolvedLink (b : Block) : String :=
  (find_container_and_event_link b.chain).2

/-- The record built for a block in the listing phase. -/
def builtRow (now : String) (b : Block) : Row :=
  row_from_event b.event (resolvedContainer b) (resolvedLink b) now

/-- The body of the listing-phase loop over `iter_event_jsonld(soup)`: drop
the block when no link resolved or the link was already seen; otherwise mark
it seen, build the record and route it — series placeholders (empty venue or
the `"Different venues"` marker in the container's raw text) into
`series_links`/`series_fallback`, direct events onto `rows`. -/
def processBlock (now : String) (st : CrawlState) (b : Block) : CrawlState :=
  if resolvedLink b = "" ∨ resolvedLink b ∈ st.seen_event_pages then st
  else
    let r := builtRow now b
    if r.location = "" ∨ strContains (containerRawText (resolvedContainer b)) "Different venues" = true then
      { rows := st.rows
        series_links := addSet st.series_links (resolvedLink b)
        series_fallback := mapSet st.series_fallback (resolvedLink b) r
        seen_event_pages := st.seen_event_pages ++ [resolvedLink b] }
    else
      { rows := st.rows ++ [builtRow now b]
        series_links := st.series_links
        series_fallback := st.series_fallback
        seen_event_pages := st.seen_event_pages ++ [resolvedLink b] }

/-- One listing page: a failed `page.goto` is skipped (`continue`), otherwise
every extracted block is processed in document order. -/
def processListingPage (now : String) (st : CrawlState) (p : PageRes) : CrawlState :=
  match p with
  | .fail => st
  | .ok blocks => blocks.foldl (processBlock now) st

/-- The whole listing phase from the empty crawl state. -/
def listingPhase (w : World) (now : String) : CrawlState :=
  w.listingPages.foldl (processListingPage now)
    { rows := [], series_links := [], series_fallback := [], seen_event_pages := [] }

/-- The body of the series-expansion loop over `iter_event_jsonld(soup)`:
keep a block only when the event has a non-empty venue name and a non-empty
ticket URL and its resolved link is non-empty and differs from the series
URL; a kept block is built into a record. -/
def seriesRow (series_url now : String) (b : Block) : Option Row :=
  if (b.event.location.bind LocObj.name).getD "" = "" then none
  else if (b.event.offers.bind OffersObj.url).getD "" = "" then none
  else if resolvedLink b = "" ∨ resolvedLink b = series_url then none
  else some (row_from_event b.event (resolvedContainer b) (resolvedLink b) now)

/-- One pending series link: on render failure emit the cached fallback (when
present) and move on; otherwise emit one record per qualifying block, or the
cached fallback when none qualified. -/
def expandSeries (fb : List (String × Row)) (sp : String → PageRes)
    (now : String) (rows : List Row) (url : String) : List Row :=
  match sp url with
  | .fail =>
    match mapGet fb url with
    | some r => rows ++ [r]
    | none => rows
  | .ok blocks =>
    if blocks.filterMap (seriesRow url now) = [] then
      match mapGet fb url with
      | some r => rows ++ [r]
      | none => rows
    else rows ++ blocks.filterMap (seriesRow url now)

/-- All records of one run before the final de-duplication: the listing-phase
rows extended by the series phase over the pending links. -/
def mergedRows (w : World) (now : String) : List Row :=
  (listingPhase w now).series_links.foldl
    (expandSeries (listingPhase w now).series_fallback w.seriesPage now)
    (listingPhase w now).rows

/-- The final dedup key `(title, start_date, start_time, location)`. -/
def dedupKey (r : Row) : String × String × String × String :=
  (r.title, r.start_date, r.start_time, r.location)

def dropDupAux (seen : List (String × String × String × String)) :
    List Row → List Row
  | [] => []
  | r :: rs =>
    if dedupKey r ∈ seen then dropDupAux seen rs
    else r :: dropDupAux (dedupKey r :: seen) rs

/-- `DataFrame.drop_duplicates(subset=…)`: keep the first record of each
key, in order. -/
def drop_duplicates (l : List Row) : List Row := dropDupAux [] l

/-- `scrape_bilietai_lt` as a function of the rendered pages: listing phase,
series phase, final de-duplication. -/
def scrape_bilietai_lt (w : World) (now : String) : List Row :=
  drop_duplicates (mergedRows w now)

/-! ### Concrete documents and worlds used to exercise the pipeline -/

/-- A bare `<a href=…>` element. -/
def aNode (h : String) : Node := .elem "a" (some h) []

def linkA : String := "https://www.bilietai.lt/eng/tickets/a-1"

def linkB : String := "https://www.bilietai.lt/eng/tickets/b-2"

def linkD : String := "https://www.bilietai.lt/eng/tickets/d-4"

/-- An event object with no location: classified as a series placeholder. -/
def evSeriesA : EventObj := ⟨some "Series A", none, none, some "2025-05-01T19:00"⟩

/-- A second location-less event object. -/
def evSeriesB : EventObj := ⟨some "Series B", none, none, some "2025-06-01T20:00"⟩

/-- A fully populated direct event object. -/
def evDirect : EventObj :=
  ⟨some "Show", some ⟨some "Hall", some ⟨some "Vilnius"⟩⟩, some ⟨some "/buy"⟩,
    some "2025-05-02T19:00"⟩

/-- A series block whose chain resolves to `linkA`. -/
def blockA : Block := ⟨[aNode "/eng/tickets/a-1"], evSeriesA⟩

/-- A series block whose chain resolves to `linkB`. -/
def blockB : Block := ⟨[aNode "/eng/tickets/b-2"], evSeriesB⟩

/-- A direct-shaped block whose chain resolves to `linkB`. -/
def blockC : Block := ⟨[aNode "/eng/tickets/b-2"], evDirect⟩

/-- A direct-shaped block whose chain resolves to `linkD`. -/
def blockD : Block := ⟨[aNode "/eng/tickets/d-4"], evDirect⟩

/-- One listing page with two series placeholders; expanding the first series
page yields a block resolving to the second series' own URL. -/
def crossSeriesWorld : World :=
  ⟨[.ok [blockA, blockB]], fun u => if u = linkA then .ok [blockC] else .fail⟩

/-- One listing page with a single direct event; every series page fails. -/
def directWorld : World := ⟨[.ok [blockD]], fun _ => .fail⟩

/-- One listing page with a single series placeholder; its series page fails. -/
def seriesFailWorld : World := ⟨[.ok [blockA]], fun _ => .fail⟩

/-- A crawl state that has already seen `linkD`. -/
def stSeenD : CrawlState := ⟨[], [], [], [linkD]⟩

/-- Container text carrying a door time before the show time. -/
def doorsNode : Node := .elem "div" none [.text "Doors 18:30, show 19:00"]

set_option maxRecDepth 10000

/-! ### Helper lemmas -/

theorem row_event_link (e : EventObj) (c : Option Node) (l now : String) :
    (row_from_event e c l now).event_link = l := rfl

theorem row_scraped_at (e : EventObj) (c : Option Node) (l now : String) :
    (row_from_event e c l now).scraped_at = now := rfl

theorem row_location (e : EventObj) (c : Option Node) (l now : String) :
    (row_from_event e c l now).location = (e.location.bind LocObj.name).getD "" := rfl

theorem row_title (e : EventObj) (c : Option Node) (l now : String) :
    (row_from_event e c l now).title = e.name.getD "" := rfl

theorem row_city (e : EventObj) (c : Option Node) (l now : String) :
    (row_from_event e c l now).city
      = ((e.location.bind LocObj.address).bind AddrObj.addressLocality).getD "" := rfl

theorem builtRow_event_link (now : String) (b : Block) :
    (builtRow now b).event_link = resolvedLink b := rfl

theorem mem_addSet (l : List String) (x y : String) :
    y ∈ addSet l x ↔ y ∈ l ∨ y = x := by
  unfold addSet
  split_ifs with h
  · constructor
    · exact Or.inl
    · rintro (hy | rfl)
      · exact hy
      · exact h
  · simp [List.mem_append]

theorem mapGet_mapSet_self (m : List (String × Row)) (k : String) (v : Row) :
    mapGet (mapSet m k v) k = some v := by
  induction m with
  | nil => simp [mapSet, mapGet]
  | cons p rest ih =>
    by_cases h : p.1 = k
    · simp [mapSet, mapGet, h]
    · simp [mapSet, mapGet, h, ih]

theorem mapGet_mapSet_ne (m : List (String × Row)) (k l : String) (v : Row)
    (h : l ≠ k) : mapGet (mapSet m k v) l = mapGet m l := by
  induction m with
  | nil => simp [mapSet, mapGet, Ne.symm h]
  | cons p rest ih =>
    by_cases hp : p.1 = k
    · simp [mapSet, mapGet, hp, Ne.symm h]
    · simp [mapSet, mapGet, hp, ih]

/-! ### Claim theorems -/

/-- C7: the record builder splits a combined date-time `startDate` at the
`"T"` separator, so `"2025-05-01T19:00"` yields `start_date = "2025-05-01"`
and `start_time = "19:00"`; and when `startDate` carries no time-of-day, the
first `time_re` match in the container's flattened text is the fallback time,
so container text `"Doors 18:30, show 19:00"` yields `"18:30"`. -/
theorem split_dt_and_fallback_time_concrete :
    split_dt "2025-05-01T19:00" = ("2025-05-01", "19:00") ∧
    first_time_from_text "Doors 18:30, show 19:00" = "18:30" ∧
    (row_from_event ⟨some "X", none, none, some "2025-05-01T19:00"⟩
        (some doorsNode) "L" "T0").start_date = "2025-05-01" ∧
    (row_from_event ⟨some "X", none, none, some "2025-05-01T19:00"⟩
        (some doorsNode) "L" "T0").start_time = "19:00" ∧
    (row_from_event ⟨some "X", none, none, some "2025-05-01"⟩
        (some doorsNode) "L" "T0").start_date = "2025-05-01" ∧
    (row_from_event ⟨some "X", none, none, some "2025-05-01"⟩
        (some doorsNode) "L" "T0").start_time = "18:30" := by
  decide

/-- C9: the record builder is total on its event-object input — every missing
nested field (`name`, `location.name`, `location.address.addressLocality`,
`offers.url`, `startDate`) yields an empty string in the built record rather
than an error, and a record with all eight schema fields is always produced
(in particular `event_link` and `scraped_at` are always populated from the
arguments). -/
theorem row_from_event_total (e : EventObj) (container : Option Node)
    (link now : String) :
    (e.name = none → (row_from_event e container link now).title = "") ∧
    (e.location.bind LocObj.name = none →
      (row_from_event e container link now).location = "") ∧
    ((e.location.bind LocObj.address).bind AddrObj.addressLocality = none →
      (row_from_event e container link now).city = "") ∧
    (e.offers.bind OffersObj.url = none →
      (row_from_event e container link now).ticket_link = "") ∧
    (e.startDate = none →
      (row_from_event e container link now).start_date = "" ∧
      (row_from_event e container link now).start_time
        = first_time_from_text (containerTextWs container)) ∧
    (row_from_event e container link now).event_link = link ∧
    (row_from_event e container link now).scraped_at = now := by
  refine ⟨?_, ?_, ?_, ?_, ?_, rfl, rfl⟩
  · intro h; simp [row_from_event, h]
  · intro h; simp [row_from_event, h]
  · intro h; simp [row_from_event, h]
  · intro h
    simp [row_from_event, h]
    decide
  · intro h
    constructor
    · simp [row_from_event, h, split_dt]
    · simp [row_from_event, h, split_dt]

/-- C9 witness: at the everywhere-missing event object, every field defaults
to the empty string and the record is still fully populated. -/
theorem row_from_event_total_witness :
    (row_from_event ⟨none, none, none, none⟩ none "L" "T0").title = "" ∧
    (row_from_event ⟨none, none, none, none⟩ none "L" "T0").location = "" ∧
    (row_from_event ⟨none, none, none, none⟩ none "L" "T0").city = "" ∧
    (row_from_event ⟨none, none, none, none⟩ none "L" "T0").ticket_link = "" ∧
    (row_from_event ⟨none, none, none, none⟩ none "L" "T0").start_date = "" ∧
    (row_from_event ⟨none, none, none, none⟩ none "L" "T0").event_link = "L" ∧
    (row_from_event ⟨none, none, none, none⟩ none "L" "T0").scraped_at = "T0" := by
  have h := row_from_event_total ⟨none, none, none, none⟩ none "L" "T0"
  exact ⟨h.1 rfl, h.2.1 rfl, h.2.2.1 rfl, h.2.2.2.1 rfl, (h.2.2.2.2.1 rfl).1,
    h.2.2.2.2.2.1, h.2.2.2.2.2.2⟩

/-- C4: for a pending series link whose page rendering fails, exactly one
record — the cached fallback for that link — is appended, and the fold over
the remaining pending links continues from that extended accumulator. -/
theorem series_render_failure_fallback (fb : List (String × Row))
    (sp : String → PageRes) (now : String) (rows : List Row) (url : String)
    (rest : List String) (r : Row)
    (hfail : sp url = PageRes.fail) (hfb : mapGet fb url = some r) :
    expandSeries fb sp now rows url = rows ++ [r] ∧
    (url :: rest).foldl (expandSeries fb sp now) rows
      = rest.foldl (expandSeries fb sp now) (rows ++ [r]) := by
  have h1 : expandSeries fb sp now rows url = rows ++ [r] := by
    simp [expandSeries, hfail, hfb]
  exact ⟨h1, by simp [h1]⟩

/-- C4 witness: in `seriesFailWorld` the one pending series link fails to
render and its cached fallback is the single appended record. -/
theorem series_render_failure_fallback_witness :
    expandSeries (listingPhase seriesFailWorld "T0").series_fallback
        seriesFailWorld.seriesPage "T0" [] linkA
      = [builtRow "T0" blockA] ∧
    [linkA].foldl
        (expandSeries (listingPhase seriesFailWorld "T0").series_fallback
          seriesFailWorld.seriesPage "T0") []
      = [].foldl
          (expandSeries (listingPhase seriesFailWorld "T0").series_fallback
            seriesFailWorld.seriesPage "T0") [builtRow "T0" blockA] := by
  have h := series_render_failure_fallback
    (listingPhase seriesFailWorld "T0").series_fallback
    seriesFailWorld.seriesPage "T0" [] linkA [] (builtRow "T0" blockA)
    rfl (by decide)
  simpa using h

/-- C5: during expansion of a series page, only blocks whose event object has
a non-empty venue name and a non-empty ticket URL produce records; a resolved
link equal to the series URL itself is rejected, so no emitted record's link
equals the series URL; qualifying blocks are emitted one record each, and
when zero blocks qualify the cached fallback is emitted exactly once. -/
theorem series_expansion_filters (url now : String) :
    (∀ b r, seriesRow url now b = some r →
      (b.event.location.bind LocObj.name).getD "" ≠ "" ∧
      (b.event.offers.bind OffersObj.url).getD "" ≠ "" ∧
      r.event_link = resolvedLink b ∧ r.event_link ≠ url ∧ r.event_link ≠ "") ∧
    (∀ fb sp rows blocks f, sp url = PageRes.ok blocks →
      blocks.filterMap (seriesRow url now) = [] → mapGet fb url = some f →
      expandSeries fb sp now rows url = rows ++ [f]) ∧
    (∀ fb sp rows blocks, sp url = PageRes.ok blocks →
      blocks.filterMap (seriesRow url now) ≠ [] →
      expandSeries fb sp now rows url
        = rows ++ blocks.filterMap (seriesRow url now)) := by
  refine ⟨?_, ?_, ?_⟩
  · intro b r h
    unfold seriesRow at h
    split_ifs at h with h1 h2 h3
    push_neg at h3
    injection h with h
    subst h
    exact ⟨h1, h2, rfl, h3.2, h3.1⟩
  · intro fb sp rows blocks f hok hempty hfb
    simp [expandSeries, hok, hempty, hfb]
  · intro fb sp rows blocks hok hne
    simp [expandSeries, hok, hne]

/-- C5 witness: expanding `crossSeriesWorld`'s first series page keeps its
one qualifying block, whose record's link differs from the series URL. -/
theorem series_expansion_filters_witness :
    (evDirect.location.bind LocObj.name).getD "" ≠ "" ∧
    (evDirect.offers.bind OffersObj.url).getD "" ≠ "" ∧
    (builtRow "T0" blockC).event_link = resolvedLink blockC ∧
    (builtRow "T0" blockC).event_link ≠ linkA ∧
    (builtRow "T0" blockC).event_link ≠ "" := by
  have h := (series_expansion_filters linkA "T0").1 blockC (builtRow "T0" blockC)
    (by decide)
  exact h

/-- Listing-phase processing never removes a link from the seen set. -/
theorem seen_mono_processBlock (now : String) (st : CrawlState) (b : Block) :
    st.seen_event_pages ⊆ (processBlock now st b).seen_event_pages := by
  simp only [processBlock]
  split_ifs <;> simp [List.subset_append_left]

theorem seen_mono_blocks (now : String) (blocks : List Block) :
    ∀ st : CrawlState,
      st.seen_event_pages ⊆ (blocks.foldl (processBlock now) st).seen_event_pages := by
  induction blocks with
  | nil => intro st; simp
  | cons b rest ih =>
    intro st
    exact (seen_mono_processBlock now st b).trans (ih (processBlock now st b))

theorem seen_mono_page (now : String) (st : CrawlState) (p : PageRes) :
    st.seen_event_pages ⊆ (processListingPage now st p).seen_event_pages := by
  cases p with
  | fail => simp [processListingPage]
  | ok blocks => exact seen_mono_blocks now blocks st

theorem seen_mono_pages (now : String) (pages : List PageRes) :
    ∀ st : CrawlState,
      st.seen_event_pages
        ⊆ (pages.foldl (processListingPage now) st).seen_event_pages := by
  induction pages with
  | nil => intro st; simp
  | cons p rest ih =>
    intro st
    exact (seen_mono_page now st p).trans (ih (processListingPage now st p))

/-- C6: a block whose resolved event link is already in the seen-link set is
discarded before reaching the output accumulator or the series set (the state
is unchanged); a processed link enters the seen set, and the seen set only
grows across blocks and listing pages — so across any two listing pages
referencing the same resolved link, only the first occurrence routes a
record. -/
theorem seen_link_guard (now : String) (st : CrawlState) (b : Block)
    (pages : List PageRes) (l : String) :
    (resolvedLink b ∈ st.seen_event_pages → processBlock now st b = st) ∧
    (resolvedLink b ≠ "" →
      resolvedLink b ∈ (processBlock now st b).seen_event_pages) ∧
    (l ∈ st.seen_event_pages → l ∈ (processBlock now st b).seen_event_pages) ∧
    (l ∈ st.seen_event_pages →
      l ∈ (pages.foldl (processListingPage now) st).seen_event_pages) := by
  refine ⟨?_, ?_, ?_, ?_⟩
  · intro h
    simp [processBlock, h]
  · intro h
    by_cases hm : resolvedLink b ∈ st.seen_event_pages
    · simp [processBlock, hm]
    · simp only [processBlock]
      split_ifs with hcond hser
      · rcases hcond with hc | hc
        · exact absurd hc h
        · exact absurd hc hm
      · simp
      · simp
  · intro h
    exact seen_mono_processBlock now st b h
  · intro h
    exact seen_mono_pages now pages st h

/-- C6 witness: a block resolving to an already-seen link leaves the state
unchanged, and a fresh resolved link is recorded as seen. -/
theorem seen_link_guard_witness :
    processBlock "T0" stSeenD blockD = stSeenD ∧
    resolvedLink blockA ∈ (processBlock "T0" stSeenD blockA).seen_event_pages := by
  have h1 := (seen_link_guard "T0" stSeenD blockD [] linkD).1 (by decide)
  have h2 := (seen_link_guard "T0" stSeenD blockA [] linkD).2.1 (by decide)
  exact ⟨h1, h2⟩

/-- C3: under the page-level guard, a built record is routed as a series
placeholder — listing rows unchanged, link added to the series set, record
cached as fallback — exactly when its venue name (location field) is empty or
the container's raw text contains the `"Different venues"` marker; otherwise
it is appended to the direct output; in particular an event object whose
`location.name` is missing or empty always routes to the series set. -/
theorem series_classification (now : String) (st : CrawlState) (b : Block)
    (hne : resolvedLink b ≠ "") (hseen : resolvedLink b ∉ st.seen_event_pages) :
    ((builtRow now b).location = "" ∨
        strContains (containerRawText (resolvedContainer b)) "Different venues" = true →
      (processBlock now st b).rows = st.rows ∧
      resolvedLink b ∈ (processBlock now st b).series_links ∧
      mapGet (processBlock now st b).series_fallback (resolvedLink b)
        = some (builtRow now b)) ∧
    (¬ ((builtRow now b).location = "" ∨
        strContains (containerRawText (resolvedContainer b)) "Different venues" = true) →
      (processBlock now st b).rows = st.rows ++ [builtRow now b] ∧
      (processBlock now st b).series_links = st.series_links) ∧
    ((b.event.location.bind LocObj.name).getD "" = "" →
      (builtRow now b).location = "" ∧
      (processBlock now st b).rows = st.rows ∧
      resolvedLink b ∈ (processBlock now st b).series_links) := by
  have hguard : ¬ (resolvedLink b = "" ∨ resolvedLink b ∈ st.seen_event_pages) := by
    push_neg
    exact ⟨hne, hseen⟩
  refine ⟨?_, ?_, ?_⟩
  · intro hser
    simp only [processBlock]
    rw [if_neg hguard, if_pos hser]
    exact ⟨rfl, (mem_addSet _ _ _).mpr (Or.inr rfl), mapGet_mapSet_self _ _ _⟩
  · intro hser
    simp only [processBlock]
    rw [if_neg hguard, if_neg hser]
    exact ⟨rfl, rfl⟩
  · intro hloc
    have hloc' : (builtRow now b).location = "" := hloc
    refine ⟨hloc', ?_, ?_⟩
    · simp only [processBlock]
      rw [if_neg hguard, if_pos (Or.inl hloc')]
    · simp only [processBlock]
      rw [if_neg hguard, if_pos (Or.inl hloc')]
      exact (mem_addSet _ _ _).mpr (Or.inr rfl)

/-- C3 witness: the location-less `blockA` routes to the series set with its
record cached, leaving the direct output untouched. -/
theorem series_classification_witness :
    (builtRow "T0" blockA).location = "" ∧
    (processBlock "T0" stSeenD blockA).rows = stSeenD.rows ∧
    resolvedLink blockA ∈ (processBlock "T0" stSeenD blockA).series_links := by
  have h := (series_classification "T0" stSeenD blockA (by decide) (by decide)).2.2
    (by decide)
  exact h

/-- The bounded ascent visits only the first `n` ancestors; either no level
within the bound has a singleton de-duplicated link set (result
`(none, "")`), or the result is the first such level with its unique link. -/
theorem ascend_characterization (chain : List Node) :
    ∀ n : Nat,
      (ascend n chain = (none, "") ∧
        ∀ x ∈ chain.take n, (uniqKeep (collectLinks x)).length ≠ 1) ∨
      (∃ pre node post l, chain = pre ++ node :: post ∧ pre.length < n ∧
        (∀ x ∈ pre, (uniqKeep (collectLinks x)).length ≠ 1) ∧
        uniqKeep (collectLinks node) = [l] ∧ ascend n chain = (some node, l)) := by
  induction chain with
  | nil =>
    intro n
    left
    constructor
    · cases n <;> rfl
    · simp
  | cons node rest ih =>
    intro n
    cases n with
    | zero =>
      left
      exact ⟨rfl, by simp⟩
    | succ k =>
      cases huniq : uniqKeep (collectLinks node) with
      | nil =>
        have hstep : ascend (Nat.succ k) (node :: rest) = ascend k rest := by
          simp [ascend, huniq]
        rcases ih k with ⟨h1, h2⟩ | ⟨pre, nd, post, l, hchain, hlen, hpre, hl, heq⟩
        · left
          refine ⟨hstep.trans h1, ?_⟩
          intro x hx
          rw [List.take_succ_cons] at hx
          rcases List.mem_cons.mp hx with rfl | hx
          · rw [huniq]; simp
          · exact h2 x hx
        · right
          refine ⟨node :: pre, nd, post, l, by rw [hchain]; rfl,
            by simpa using Nat.succ_lt_succ hlen, ?_, hl, hstep.trans heq⟩
          intro x hx
          rcases List.mem_cons.mp hx with rfl | hx
          · rw [huniq]; simp
          · exact hpre x hx
      | cons l tail =>
        cases tail with
        | nil =>
          right
          exact ⟨[], node, rest, l, rfl, Nat.succ_pos k, by simp, huniq,
            by simp [ascend, huniq]⟩
        | cons l2 t2 =>
          have hstep : ascend (Nat.succ k) (node :: rest) = ascend k rest := by
            simp [ascend, huniq]
          have hne1 : (uniqKeep (collectLinks node)).length ≠ 1 := by
            rw [huniq]; simp
          rcases ih k with ⟨h1, h2⟩ | ⟨pre, nd, post, l', hchain, hlen, hpre, hl, heq⟩
          · left
            refine ⟨hstep.trans h1, ?_⟩
            intro x hx
            rw [List.take_succ_cons] at hx
            rcases List.mem_cons.mp hx with rfl | hx
            · exact hne1
            · exact h2 x hx
          · right
            refine ⟨node :: pre, nd, post, l', by rw [hchain]; rfl,
              by simpa using Nat.succ_lt_succ hlen, ?_, hl, hstep.trans heq⟩
            intro x hx
            rcases List.mem_cons.mp hx with rfl | hx
            · exact hne1
            · exact hpre x hx

/-- C1: the container/link resolver is total and yields at most one link for
every metadata block: either the block's nearest enclosing `<a>` carries a
detail-shaped href and that element with its resolved URL is returned, or —
when there is no such matching enclosing link — the resolver inspects at most
the first 10 ancestors, returning the first one whose de-duplicated set of
detail links beneath it has exactly one member together with that single
link, and `(none, "")` when no inspected level has exactly one. -/
theorem container_resolver_spec (chain : List Node) :
    (∃ a h, find_parent_a chain = some (a, h) ∧
      detailFromHref h = some (find_container_and_event_link chain).2 ∧
      (find_container_and_event_link chain).1 = some a) ∨
    ((∀ a h, find_parent_a chain = some (a, h) → detailFromHref h = none) ∧
      ((find_container_and_event_link chain = (none, "") ∧
          ∀ x ∈ chain.take 10, (uniqKeep (collectLinks x)).length ≠ 1) ∨
        (∃ pre node post l, chain = pre ++ node :: post ∧ pre.length < 10 ∧
          (∀ x ∈ pre, (uniqKeep (collectLinks x)).length ≠ 1) ∧
          uniqKeep (collectLinks node) = [l] ∧
          find_container_and_event_link chain = (some node, l)))) := by
  rcases hfp : find_parent_a chain with _ | ⟨a, href⟩
  · right
    have hasc : find_container_and_event_link chain = ascend 10 chain := by
      simp [find_container_and_event_link, hfp]
    refine ⟨?_, ?_⟩
    · intro a h hh
      exact Option.noConfusion hh
    · rcases ascend_characterization chain 10 with ⟨h1, h2⟩ |
        ⟨pre, nd, post, l, hc, hl, hp, hu, he⟩
      · exact Or.inl ⟨hasc.trans h1, h2⟩
      · exact Or.inr ⟨pre, nd, post, l, hc, hl, hp, hu, hasc.trans he⟩
  · rcases hd : detailFromHref href with _ | l
    · right
      have hasc : find_container_and_event_link chain = ascend 10 chain := by
        simp [find_container_and_event_link, hfp, hd]
      refine ⟨?_, ?_⟩
      · intro a' h' hh
        injection hh with hh
        injection hh with h1 h2
        subst h2
        exact hd
      · rcases ascend_characterization chain 10 with ⟨h1, h2⟩ |
          ⟨pre, nd, post, l, hc, hl, hp, hu, he⟩
        · exact Or.inl ⟨hasc.trans h1, h2⟩
        · exact Or.inr ⟨pre, nd, post, l, hc, hl, hp, hu, hasc.trans he⟩
    · left
      refine ⟨a, href, rfl, ?_, ?_⟩
      · simp [find_container_and_event_link, hfp, hd]
      · simp [find_container_and_event_link, hfp, hd]

/-- Membership in the de-duplicated list: exactly the records whose key is
not among the already-seen keys and which are the first record of their key
in the input. -/
theorem mem_dropDupAux (r : Row) (l : List Row) :
    ∀ seen : List (String × String × String × String),
      r ∈ dropDupAux seen l ↔
        dedupKey r ∉ seen ∧
          l.find? (fun x => decide (dedupKey x = dedupKey r)) = some r := by
  induction l with
  | nil => intro seen; simp [dropDupAux]
  | cons x xs ih =>
    intro seen
    by_cases hs : dedupKey x ∈ seen
    · rw [show dropDupAux seen (x :: xs) = dropDupAux seen xs by
        simp [dropDupAux, hs]]
      rw [ih seen]
      by_cases hk : dedupKey x = dedupKey r
      · rw [List.find?_cons_of_pos _ (by simp [hk])]
        constructor
        · rintro ⟨hns, _⟩
          exact absurd (hk ▸ hs) hns
        · rintro ⟨hns, _⟩
          exact absurd (hk ▸ hs) hns
      · rw [List.find?_cons_of_neg _ (by simp [hk])]
    · rw [show dropDupAux seen (x :: xs)
          = x :: dropDupAux (dedupKey x :: seen) xs by simp [dropDupAux, hs]]
      rw [List.mem_cons, ih (dedupKey x :: seen)]
      by_cases hk : dedupKey x = dedupKey r
      · rw [List.find?_cons_of_pos _ (by simp [hk])]
        constructor
        · rintro (rfl | ⟨hns, _⟩)
          · exact ⟨fun hm => hs hm, rfl⟩
          · exact absurd hk fun he => hns (he ▸ List.mem_cons_self _ _)
        · rintro ⟨hns, hf⟩
          injection hf with hf
          exact Or.inl hf.symm
      · rw [List.find?_cons_of_neg _ (by simp [hk])]
        constructor
        · rintro (rfl | ⟨hns, hf⟩)
          · exact absurd rfl hk
          · exact ⟨fun hm => hns (List.mem_cons_of_mem _ hm), hf⟩
        · rintro ⟨hns, hf⟩
          refine Or.inr ⟨?_, hf⟩
          intro hm
          rcases List.mem_cons.mp hm with he | hm2
          · exact hk he.symm
          · exact hns hm2

/-- The de-duplicated list has pairwise distinct keys. -/
theorem pairwise_dropDupAux (l : List Row) :
    ∀ seen : List (String × String × String × String),
      (dropDupAux seen l).Pairwise (fun a b => dedupKey a ≠ dedupKey b) := by
  induction l with
  | nil => intro seen; simp [dropDupAux]
  | cons x xs ih =>
    intro seen
    by_cases hs : dedupKey x ∈ seen
    · rw [show dropDupAux seen (x :: xs) = dropDupAux seen xs by
        simp [dropDupAux, hs]]
      exact ih seen
    · rw [show dropDupAux seen (x :: xs)
          = x :: dropDupAux (dedupKey x :: seen) xs by simp [dropDupAux, hs]]
      refine List.Pairwise.cons ?_ (ih _)
      intro b hb
      have hns := ((mem_dropDupAux b xs _).mp hb).1
      intro he
      exact hns (he ▸ List.mem_cons_self _ _)

/-- C2: in the final returned table the key
`(title, start_date, start_time, location)` is unique across all records, and
every returned record is the first record with its key, in insertion order,
among the merged listing- and series-phase rows. -/
theorem final_table_dedup (w : World) (now : String) (r : Row)
    (hr : r ∈ scrape_bilietai_lt w now) :
    (scrape_bilietai_lt w now).Pairwise (fun a b => dedupKey a ≠ dedupKey b) ∧
    (mergedRows w now).find? (fun x => decide (dedupKey x = dedupKey r))
      = some r := by
  constructor
  · exact pairwise_dropDupAux _ _
  · exact ((mem_dropDupAux r (mergedRows w now) []).mp hr).2

/-- C2 witness: in `directWorld` the single produced record survives
de-duplication as the first of its key. -/
theorem final_table_dedup_witness :
    (scrape_bilietai_lt directWorld "T0").Pairwise
      (fun a b => dedupKey a ≠ dedupKey b) ∧
    (mergedRows directWorld "T0").find?
        (fun x => decide (dedupKey x = dedupKey (builtRow "T0" blockD)))
      = some (builtRow "T0" blockD) :=
  final_table_dedup directWorld "T0" (builtRow "T0" blockD) (by decide)

/-- The listing-phase state invariant: every accumulated direct row's link
and every pending series link has been marked seen, no direct row's link is a
pending series link, and every pending series link has a cached fallback. -/
def goodState (st : CrawlState) : Prop :=
  (∀ r ∈ st.rows, r.event_link ∈ st.seen_event_pages) ∧
  (∀ l ∈ st.series_links, l ∈ st.seen_event_pages) ∧
  (∀ r ∈ st.rows, r.event_link ∉ st.series_links) ∧
  (∀ l ∈ st.series_links, (mapGet st.series_fallback l).isSome = true)

theorem goodState_processBlock (now : String) (st : CrawlState) (b : Block)
    (h : goodState st) : goodState (processBlock now st b) := by
  obtain ⟨h1, h2, h3, h4⟩ := h
  by_cases hg : resolvedLink b = "" ∨ resolvedLink b ∈ st.seen_event_pages
  · simp only [processBlock]
    rw [if_pos hg]
    exact ⟨h1, h2, h3, h4⟩
  · by_cases hser : (builtRow now b).location = "" ∨
      strContains (containerRawText (resolvedContainer b)) "Different venues" = true
    · simp only [processBlock]
      rw [if_neg hg, if_pos hser]
      refine ⟨?_, ?_, ?_, ?_⟩
      · intro r hr
        exact List.mem_append_left _ (h1 r hr)
      · intro l hl
        rcases (mem_addSet _ _ _).mp hl with hl | rfl
        · exact List.mem_append_left _ (h2 l hl)
        · exact List.mem_append_right _ (List.mem_singleton.mpr rfl)
      · intro r hr hmem
        rcases (mem_addSet _ _ _).mp hmem with hmem | heq
        · exact h3 r hr hmem
        · exact hg (Or.inr (heq ▸ h1 r hr))
      · intro l hl
        rcases (mem_addSet _ _ _).mp hl with hl | rfl
        · by_cases hlL : l = resolvedLink b
          · subst hlL
            rw [mapGet_mapSet_self]
            rfl
          · rw [mapGet_mapSet_ne _ _ _ _ hlL]
            exact h4 l hl
        · rw [mapGet_mapSet_self]
          rfl
    · simp only [processBlock]
      rw [if_neg hg, if_neg hser]
      refine ⟨?_, ?_, ?_, ?_⟩
      · intro r hr
        rcases List.mem_append.mp hr with hr | hr
        · exact List.mem_append_left _ (h1 r hr)
        · rw [List.mem_singleton] at hr
          subst hr
          rw [builtRow_event_link]
          exact List.mem_append_right _ (List.mem_singleton.mpr rfl)
      · intro l hl
        exact List.mem_append_left _ (h2 l hl)
      · intro r hr
        rcases List.mem_append.mp hr with hr | hr
        · exact h3 r hr
        · rw [List.mem_singleton] at hr
          subst hr
          rw [builtRow_event_link]
          intro hmem
          exact hg (Or.inr (h2 _ hmem))
      · exact h4

theorem goodState_blocks (now : String) (blocks : List Block) :
    ∀ st : CrawlState, goodState st →
      goodState (blocks.foldl (processBlock now) st) := by
  induction blocks with
  | nil => intro st h; exact h
  | cons b rest ih =>
    intro st h
    exact ih (processBlock now st b) (goodState_processBlock now st b h)

theorem goodState_page (now : String) (st : CrawlState) (p : PageRes)
    (h : goodState st) : goodState (processListingPage now st p) := by
  cases p with
  | fail => exact h
  | ok blocks => exact goodState_blocks now blocks st h

theorem goodState_pages (now : String) (pages : List PageRes) :
    ∀ st : CrawlState, goodState st →
      goodState (pages.foldl (processListingPage now) st) := by
  induction pages with
  | nil => intro st h; exact h
  | cons p rest ih =>
    intro st h
    exact ih (processListingPage now st p) (goodState_page now st p h)

theorem goodState_listingPhase (w : World) (now : String) :
    goodState (listingPhase w now) := by
  apply goodState_pages
  refine ⟨?_, ?_, ?_, ?_⟩ <;> intro x hx <;> exact absurd hx (List.not_mem_nil x)

/-- C10: after the listing phase, every pending series link has a cached
fallback record — the series set is a subset of the fallback map's keys, so
both fallback-emission branches always find a record to emit. -/
theorem series_links_have_fallback (w : World) (now : String) (l : String)
    (hl : l ∈ (listingPhase w now).series_links) :
    (mapGet (listingPhase w now).series_fallback l).isSome = true :=
  (goodState_listingPhase w now).2.2.2 l hl

/-- C10 witness: the one pending series link of `seriesFailWorld` has its
cached fallback. -/
theorem series_links_have_fallback_witness :
    (mapGet (listingPhase seriesFailWorld "T0").series_fallback linkA).isSome
      = true :=
  series_links_have_fallback seriesFailWorld "T0" linkA (by decide)

/-- C8 as stated is false: in `crossSeriesWorld`, expanding the first series
page emits a record whose `event_link` is the second pending series link, so
that link identifies both an emitted record and a member of the
series-pending set within one run. -/
theorem direct_series_overlap_counterexample :
    ¬ (∀ r ∈ mergedRows crossSeriesWorld "T0", r.event_link ≠ "" →
        r.event_link ∉ (listingPhase crossSeriesWorld "T0").series_links) := by
  decide

/-- C8 amended: during the listing phase the claim holds — no event link is
both the link of a record appended to the direct output accumulator and a
member of the series-pending set; records emitted by the series-expansion
phase are not covered by the guarantee. -/
theorem listing_rows_series_disjoint (w : World) (now : String) (r : Row)
    (hr : r ∈ (listingPhase w now).rows) :
    r.event_link ∉ (listingPhase w now).series_links :=
  (goodState_listingPhase w now).2.2.1 r hr

/-- C8 amended witness: the direct record of `directWorld` is not a pending
series link. -/
theorem listing_rows_series_disjoint_witness :
    (builtRow "T0" blockD).event_link
      ∉ (listingPhase directWorld "T0").series_links :=
  listing_rows_series_disjoint directWorld "T0" (builtRow "T0" blockD)
    (by decide)
